import Mathlib

/-!
Shallow embedding of the offline reconciliation engine of the asset
pairing PWA in this repository: the client-side local store (the Dexie
tables and helpers in the db module), the API client and sync
coordinator (ApiClient / NetworkManager in the api module), the pair
admission logic of the PairBuilder component, and the server-side batch
merge endpoint (POST /api/pairs/batch in server/server.js).

Modelling conventions: timestamps are naturals (ISO8601 strings compare
like times), the IndexedDB / SQLite tables are in-memory association
lists observed only through lookups, and the storage layer is
non-failing (the database-error branches of the source are unreachable
in the model).  The remote HTTP call made during queue replay is
abstracted as a function from the submitted items to either a response
list or a thrown error message.
-/

namespace AssetSync

/-- Association-list lookup: first entry with the given key. -/
def alookup {K V : Type} [DecidableEq K] : List (K × V) → K → Option V
  | [], _ => none
  | p :: rest, k => if p.1 = k then some p.2 else alookup rest k

/-- Keyed upsert on an association list (Dexie `put` and SQLite
`INSERT OR REPLACE`): any old entry with the key is dropped and the new
binding appended.  Physical row order is a representation detail; all
observations go through `alookup`. -/
def aput {K V : Type} [DecidableEq K] (k : K) (v : V) (l : List (K × V)) : List (K × V) :=
  l.filter (fun p => !decide (p.1 = k)) ++ [(k, v)]

/-- Update-in-place of the entry with the given key, if any (SQL
`UPDATE ... WHERE key = ?`): never inserts. -/
def aupdate {K V : Type} [DecidableEq K] (k : K) (f : V → V) (l : List (K × V)) : List (K × V) :=
  l.map (fun p => if p.1 = k then (p.1, f p.2) else p)

/-- Status of a locally stored scan pair (db module, interface Pair). -/
inductive PairStatus
  | pending
  | uploaded
  | error
deriving DecidableEq, Repr

/-- Status of a queued upload batch (db module, interface UploadBatch). -/
inductive BatchStatus
  | pending
  | uploading
  | done
  | error
deriving DecidableEq, Repr

/-- Status of an asset tag (db module, interface AssetTag). -/
inductive TagStatus
  | unused
  | used
deriving DecidableEq, Repr

/-- Per-item outcome of the batch upload endpoint (api module,
PairUploadResponse.status).  The server code emits the first three;
`asset_tag_in_use` exists only in the client-side type. -/
inductive UploadStatus
  | ok_inserted
  | ok_overwrite_same_pair
  | missing_asset_tag
  | asset_tag_in_use
deriving DecidableEq, Repr

/-- One locally stored scan pair (db module, interface Pair). -/
structure Pair where
  id : Nat
  asset_tag : String
  serial : String
  scanned_at : Nat
  status : PairStatus
deriving DecidableEq, Repr

/-- One queued upload batch (db module, interface UploadBatch). -/
structure UploadBatch where
  id : Nat
  items : List Pair
  status : BatchStatus
  created_at : Nat
  error_message : Option String
deriving DecidableEq, Repr

/-- Cached asset-tag record, minus its natural key (db module,
interface AssetTag; the tag string itself is the association-list key). -/
structure AssetTagRec where
  status : TagStatus
  last_serial : Option String
  updated_at : Nat
deriving DecidableEq, Repr

/-- The singleton auth token row (db module, interface AuthToken). -/
structure AuthToken where
  token : String
  username : String
  expires_at : Nat
deriving DecidableEq, Repr

/-- The client-side local store: the four Dexie collections of
AssetTrackerDB plus the auto-increment counters of the `++id` tables. -/
structure ClientDB where
  pairs : List Pair
  nextPairId : Nat
  uploadQueue : List UploadBatch
  nextBatchId : Nat
  assetTags : List (String × AssetTagRec)
  authToken : Option AuthToken
deriving DecidableEq, Repr

/-- dbHelpers.addPair: append a new pending pair with a fresh id and the
current time as scanned_at. -/
def addPair (asset_tag serial : String) (now : Nat) (db : ClientDB) : ClientDB :=
  { db with
      pairs := db.pairs ++ [⟨db.nextPairId, asset_tag, serial, now, .pending⟩],
      nextPairId := db.nextPairId + 1 }

/-- dbHelpers.updateAssetTag: keyed put of a fresh record whose
updated_at is the local current time.  The helper has no parameter for a
caller-supplied timestamp: every upsert is stamped locally. -/
def updateAssetTag (tag : String) (status : TagStatus) (last_serial : Option String)
    (now : Nat) (db : ClientDB) : ClientDB :=
  { db with assetTags := aput tag ⟨status, last_serial, now⟩ db.assetTags }

/-- dbHelpers.getAssetTag. -/
def getAssetTag (tag : String) (db : ClientDB) : Option AssetTagRec :=
  alookup db.assetTags tag

/-- dbHelpers.getPendingUploads: upload batches whose status is
`pending` (and only those), in queue order. -/
def getPendingUploads (db : ClientDB) : List UploadBatch :=
  db.uploadQueue.filter (fun b => decide (b.status = BatchStatus.pending))

/-- dbHelpers.clearUserData: clears pairs, uploadQueue and authTokens;
the asset-tag cache is kept. -/
def clearUserData (db : ClientDB) : ClientDB :=
  { db with pairs := [], uploadQueue := [], authToken := none }

/-- Outcome of one run of PairBuilder.validateAndAddPair, projecting the
UI effects of that handler: the required-fields error, the missing-tag
confirmation dialog, the conflict error message, or a saved pair. -/
inductive AdmissionOutcome
  | inputRequired
  | missingTagDialog
  | conflict (message : String)
  | saved
deriving DecidableEq, Repr

/-- JS String.prototype.trim as used by PairBuilder, modelled on the
character list (strip leading and trailing whitespace); defined
structurally so that concrete instances evaluate. -/
def jsTrim (s : String) : String :=
  ⟨((s.data.dropWhile Char.isWhitespace).reverse.dropWhile Char.isWhitespace).reverse⟩

/-- The conflict test of PairBuilder.validateAndAddPair: the cached
record blocks admission when its status is `used` and its last_serial is
truthy (present and non-empty, per the JS `&&` chain) and differs from
the submitted serial; the blocking serial is returned. -/
def conflictSerial (info : AssetTagRec) (serial : String) : Option String :=
  match info.last_serial with
  | some ls => if info.status = .used ∧ ls ≠ "" ∧ ls ≠ serial then some ls else none
  | none => none

/-- PairBuilder.validateAndAddPair: require both fields non-empty after
trimming, look the trimmed tag up in the local cache, show the
missing-tag dialog if absent, reject on a used-tag serial conflict, and
otherwise persist a new pending pair. -/
def validateAndAddPair (assetTag serial : String) (now : Nat) (db : ClientDB) :
    AdmissionOutcome × ClientDB :=
  if (jsTrim assetTag) = "" ∨ (jsTrim serial) = "" then (.inputRequired, db)
  else
    match getAssetTag (jsTrim assetTag) db with
    | none => (.missingTagDialog, db)
    | some info =>
        match conflictSerial info (jsTrim serial) with
        | some ls => (.conflict ("Asset tag already used with serial: " ++ ls), db)
        | none => (.saved, addPair (jsTrim assetTag) (jsTrim serial) now db)

/-- The confirm button of the PairBuilder missing-tag dialog: register
the trimmed tag locally as `unused` (at registration time tReg), then
re-run validateAndAddPair (whose own write is stamped tAdd). -/
def confirmMissingTag (assetTag serial : String) (tReg tAdd : Nat) (db : ClientDB) :
    AdmissionOutcome × ClientDB :=
  validateAndAddPair assetTag serial tAdd
    (updateAssetTag (jsTrim assetTag) .unused none tReg db)

/-- An HTTP response as seen by ApiClient.makeRequest: status code and
body text. -/
structure HttpResponse where
  status : Nat
  body : String
deriving DecidableEq, Repr

/-- Errors thrown by ApiClient.makeRequest: the 401-triggered
authentication-required error, or the generic API error carrying status
and body. -/
inductive ApiError
  | authRequired
  | apiFault (status : Nat) (body : String)
deriving DecidableEq, Repr

/-- ApiClient.makeRequest, from the point where the HTTP response is
available: a 401 clears the user-scoped local data and throws the
authentication-required error (the function returns instead of looping,
so no retry happens); any other non-2xx throws a generic API error; a
2xx yields the body. -/
def makeRequest (resp : HttpResponse) (db : ClientDB) :
    Except ApiError String × ClientDB :=
  if resp.status = 401 then (.error .authRequired, clearUserData db)
  else if 200 ≤ resp.status ∧ resp.status ≤ 299 then (.ok resp.body, db)
  else (.error (.apiFault resp.status resp.body), db)

/-- One per-item entry of the batch upload response (api module,
PairUploadResponse). -/
structure PairUploadResponse where
  status : UploadStatus
  asset_tag : String
  serial : String
  message : Option String
deriving DecidableEq, Repr

/-- The statuses treated as success by NetworkManager.processOfflineQueue. -/
def isOkStatus : UploadStatus → Bool
  | .ok_inserted => true
  | .ok_overwrite_same_pair => true
  | _ => false

/-- The abstracted remote call api.uploadPairs: either a response list
or a thrown error message. -/
def UploadCall : Type :=
  List Pair → Except String (List PairUploadResponse)

/-- The first loop of processOfflineQueue over a response list: for each
success outcome, upsert the local asset-tag cache entry to `used` with
the submitted serial. -/
def applyTagResults : List PairUploadResponse → Nat → ClientDB → ClientDB
  | [], _, db => db
  | r :: rest, now, db =>
      applyTagResults rest now
        (if isOkStatus r.status then updateAssetTag r.asset_tag .used (some r.serial) now db else db)

/-- Dexie uploadQueue.update(batch.id, status done): set only the
status field of the batch with the given id. -/
def markBatchDone (id : Nat) (db : ClientDB) : ClientDB :=
  { db with
      uploadQueue := db.uploadQueue.map fun b =>
        if b.id = id then { b with status := .done } else b }

/-- Dexie uploadQueue.update(batch.id, status error plus message). -/
def markBatchError (id : Nat) (msg : String) (db : ClientDB) : ClientDB :=
  { db with
      uploadQueue := db.uploadQueue.map fun b =>
        if b.id = id then { b with status := .error, error_message := some msg } else b }

/-- Dexie pairs.where(asset_tag, serial).modify(status uploaded): mark
every pair row with the given key as uploaded. -/
def markPairsUploaded (t sn : String) (db : ClientDB) : ClientDB :=
  { db with
      pairs := db.pairs.map fun p =>
        if p.asset_tag = t ∧ p.serial = sn then { p with status := .uploaded } else p }

/-- The second loop of processOfflineQueue over batch.items: find the
first response entry with the item's (asset_tag, serial) key and, when
it is a success, mark the matching local pair rows uploaded. -/
def applyPairResults : List Pair → List PairUploadResponse → ClientDB → ClientDB
  | [], _, db => db
  | it :: rest, results, db =>
      applyPairResults rest results
        (match results.find? (fun r => decide (r.asset_tag = it.asset_tag ∧ r.serial = it.serial)) with
         | some r => if isOkStatus r.status then markPairsUploaded it.asset_tag it.serial db else db
         | none => db)

/-- The body of the processOfflineQueue loop for one batch: submit the
batch's items as one remote call; on a response, update the asset-tag
cache from the successes, mark the batch done, and mark the successful
pairs uploaded; on a thrown fault, mark the batch error with the
message. -/
def processBatch (upload : UploadCall) (now : Nat) (db : ClientDB)
    (batch : UploadBatch) : ClientDB :=
  match upload batch.items with
  | .ok results =>
      applyPairResults batch.items results (markBatchDone batch.id (applyTagResults results now db))
  | .error msg => markBatchError batch.id msg db

/-- The processOfflineQueue loop over the snapshot of pending batches,
applied left to right. -/
def replayBatches (upload : UploadCall) (now : Nat) : List UploadBatch → ClientDB → ClientDB
  | [], db => db
  | b :: rest, db => replayBatches upload now rest (processBatch upload now db b)

/-- NetworkManager.processOfflineQueue, run on the transition to online:
take one snapshot of the batches with status `pending` and process each
in queue order.  The second component is the trace of remote upload
calls made (the submitted item lists, in call order). -/
def processOfflineQueue (upload : UploadCall) (now : Nat) (db : ClientDB) :
    ClientDB × List (List Pair) :=
  (replayBatches upload now (getPendingUploads db) db,
   (getPendingUploads db).map (fun b => b.items))

/-- Status of the queue entry with the given id, if present. -/
def batchStatusOf (db : ClientDB) (id : Nat) : Option BatchStatus :=
  (db.uploadQueue.find? (fun b => decide (b.id = id))).map (fun b => b.status)

/-- One element of the GET /asset-tags response used by
NetworkManager.syncAssetTags: the remote record including the remote
updated_at timestamp. -/
structure AssetTagResponse where
  tag : String
  status : TagStatus
  last_serial : Option String
  updated_at : Nat
deriving DecidableEq, Repr

/-- The upsert loop of NetworkManager.syncAssetTags: each returned
record is written through dbHelpers.updateAssetTag, which receives only
the tag, status and last_serial — the remote updated_at is dropped and
the local clock is stamped instead. -/
def syncAssetTags (remote : List AssetTagResponse) (now : Nat) (db : ClientDB) :
    ClientDB :=
  match remote with
  | [] => db
  | r :: rest => syncAssetTags rest now (updateAssetTag r.tag r.status r.last_serial now db)

/-- The local sync watermark: the greatest updated_at stored in the
asset-tag cache (assetTags.orderBy updated_at .last in syncAssetTags). -/
def maxTime : List (String × AssetTagRec) → Option Nat
  | [] => none
  | p :: rest =>
      match maxTime rest with
      | none => some p.2.updated_at
      | some m => some (max p.2.updated_at m)

/-- The watermark of a client store. -/
def watermark (db : ClientDB) : Option Nat :=
  maxTime db.assetTags

/-- One row of the server-side pairs history table, minus its
(asset_tag, serial) key: who submitted it and when (server/server.js,
pairs table). -/
structure PairMeta where
  assigned_by : String
  assigned_at : Nat
deriving DecidableEq, Repr

/-- The authority's SQLite state: the asset_tags table keyed by tag and
the pairs table keyed by its UNIQUE(asset_tag, serial) constraint. -/
structure ServerState where
  assetTags : List (String × AssetTagRec)
  pairs : List ((String × String) × PairMeta)
deriving DecidableEq, Repr

/-- One element of the POST /api/pairs/batch request body. -/
structure BatchItem where
  asset_tag : String
  serial : String
  scanned_at : Option Nat
deriving DecidableEq, Repr

/-- The per-item work of the POST /api/pairs/batch handler
(server/server.js): look the tag up in asset_tags (absent tag gives
`missing_asset_tag` and no write); otherwise note whether the exact
(asset_tag, serial) row already exists (`ok_overwrite_same_pair` when it
does, `ok_inserted` otherwise), INSERT OR REPLACE the pairs row, and
UPDATE the asset_tags row to status `used` with last_serial the
submitted serial and updated_at the server clock. -/
def mergeItem (user : String) (now : Nat) (s : ServerState) (it : BatchItem) :
    PairUploadResponse × ServerState :=
  match alookup s.assetTags it.asset_tag with
  | none => (⟨.missing_asset_tag, it.asset_tag, it.serial, some "Asset tag not found"⟩, s)
  | some _ =>
      let existing := alookup s.pairs (it.asset_tag, it.serial)
      let st := if existing.isSome then UploadStatus.ok_overwrite_same_pair else UploadStatus.ok_inserted
      let pairs1 := aput (it.asset_tag, it.serial) ⟨user, it.scanned_at.getD now⟩ s.pairs
      let tags1 := aupdate it.asset_tag (fun _ => ⟨.used, some it.serial, now⟩) s.assetTags
      (⟨st, it.asset_tag, it.serial, none⟩, ⟨tags1, pairs1⟩)

/-- The whole batch applied in request order, returning the per-item
responses positionally aligned with the request. -/
def runBatch (user : String) (now : Nat) : List BatchItem → ServerState →
    List PairUploadResponse × ServerState
  | [], s => ([], s)
  | it :: rest, s =>
      let step := mergeItem user now s it
      let tail := runBatch user now rest step.2
      (step.1 :: tail.1, tail.2)

/-- The POST /api/pairs/batch handler from the point where the body has
been parsed as an array.  In the source, res.json is only reached inside
the per-item callbacks (when `completed === pairs.length`), so a
zero-item array runs no callback and never sends a response; this is
modelled as `none`.  A nonempty array yields the aligned response
list. -/
def batchHandler (user : String) (now : Nat) (items : List BatchItem)
    (s : ServerState) : Option (List PairUploadResponse) × ServerState :=
  match items with
  | [] => (none, s)
  | _ =>
      let out := runBatch user now items s
      (some out.1, out.2)

/-- Whether a tag row exists in the authority's asset_tags table. -/
def tagExists (s : ServerState) (t : String) : Bool :=
  (alookup s.assetTags t).isSome

/-- Whether a (asset_tag, serial) row exists in the pairs table. -/
def pairKeyExists (s : ServerState) (k : String × String) : Bool :=
  (alookup s.pairs k).isSome

/-- The observable per-tag AssetTag state of the authority: status and
last_serial (the timestamp column is excluded by the idempotence claim). -/
def tagView (s : ServerState) (t : String) : Option (TagStatus × Option String) :=
  (alookup s.assetTags t).map (fun a => (a.status, a.last_serial))

/-- The serial of the last batch item carrying the given tag, if any:
the last write wins in the asset_tags projection. -/
def lastSerialFor : List BatchItem → String → Option String
  | [], _ => none
  | it :: rest, t =>
      match lastSerialFor rest t with
      | some sn => some sn
      | none => if it.asset_tag = t then some it.serial else none


/-- The batch status processOfflineQueue leaves a replayed batch in,
as a function of its own remote call's outcome: `done` on any response,
`error` on a thrown fault. -/
def replayOutcome (upload : UploadCall) (b : UploadBatch) : BatchStatus :=
  match upload b.items with
  | .ok _ => .done
  | .error _ => .error

/-- Whether the first response entry with the given (asset_tag, serial)
key is a success — the test the pair-status loop of processOfflineQueue
applies to each batch item. -/
def resultOkFor (results : List PairUploadResponse) (t sn : String) : Bool :=
  match results.find? (fun r => decide (r.asset_tag = t ∧ r.serial = sn)) with
  | some r => isOkStatus r.status
  | none => false

/-- Whether the pair-status loop marks rows with the given key as
uploaded: some batch item carries the key and the first response entry
for the key is a success. -/
def keyUploaded (items : List Pair) (results : List PairUploadResponse)
    (t sn : String) : Bool :=
  items.any (fun it => decide (it.asset_tag = t ∧ it.serial = sn))
    && resultOkFor results t sn

/-- A pending pair used by the concrete witnesses. -/
def pairA : Pair := ⟨0, "AT001", "SN1", 0, .pending⟩

/-- A second pending pair used by the concrete witnesses. -/
def pairB : Pair := ⟨1, "AT002", "SN2", 1, .pending⟩

/-- A pending pair whose tag is unknown to the server. -/
def pairC : Pair := ⟨0, "AT999", "SN1", 0, .pending⟩

/-- A remote call that answers every item with ok_inserted. -/
def okUpload : UploadCall := fun items =>
  .ok (items.map (fun p => ⟨.ok_inserted, p.asset_tag, p.serial, none⟩))

/-- A remote call that answers every item with missing_asset_tag. -/
def missUpload : UploadCall := fun items =>
  .ok (items.map (fun p => ⟨.missing_asset_tag, p.asset_tag, p.serial, some "Asset tag not found"⟩))

/-- A remote call that succeeds on the batch containing pairA and
throws a network fault on every other batch. -/
def mixedUpload : UploadCall := fun items =>
  match items with
  | [p] =>
      if p.asset_tag = "AT001" then .ok [⟨.ok_inserted, p.asset_tag, p.serial, none⟩]
      else .error "Failed to fetch"
  | _ => .error "Failed to fetch"

/-- A store whose queue holds a single batch with status `error`. -/
def errorQueueDB : ClientDB :=
  ⟨[pairA], 1, [⟨0, [pairA], .error, 0, some "Upload failed"⟩], 1, [], none⟩

/-- A store with two pending batches, oldest first, plus an error batch. -/
def twoBatchDB : ClientDB :=
  ⟨[pairA, pairB], 2,
   [⟨0, [pairA], .pending, 0, none⟩, ⟨1, [pairB], .pending, 1, none⟩,
    ⟨2, [pairA], .error, 2, some "Upload failed"⟩],
   3, [], none⟩

/-- A store with one pending batch holding the unknown-tag pair. -/
def missingTagBatchDB : ClientDB :=
  ⟨[pairC], 1, [⟨0, [pairC], .pending, 0, none⟩], 1, [], none⟩

/-- A server state with no asset tags and no pairs. -/
def emptyServer : ServerState := ⟨[], []⟩

/-- A server state provisioned with the unused tag AT001. -/
def provisionedServer : ServerState := ⟨[("AT001", ⟨.unused, none, 0⟩)], []⟩

/-- A two-item batch: one known tag, one unknown tag. -/
def wItems : List BatchItem := [⟨"AT001", "SN1", some 2⟩, ⟨"AT404", "SN2", none⟩]

/-- A client store whose cache holds AT001 as used with last serial SN1. -/
def usedTagDB : ClientDB :=
  ⟨[], 0, [], 0, [("AT001", ⟨.used, some "SN1", 0⟩)], none⟩

/-- A client store with an empty asset-tag cache. -/
def noTagDB : ClientDB := ⟨[], 0, [], 0, [], none⟩

/-- A one-record remote asset-tags response carrying a remote
updated_at of 999. -/
def wRemote : List AssetTagResponse := [⟨"AT002", .used, some "SNX", 999⟩]

theorem alookup_append {K V : Type} [DecidableEq K] (l1 l2 : List (K × V)) (k : K) :
    alookup (l1 ++ l2) k =
      match alookup l1 k with
      | some v => some v
      | none => alookup l2 k := by
  induction l1 with
  | nil => simp [alookup]
  | cons p rest ih =>
      by_cases h : p.1 = k <;> simp [alookup, h, ih]

theorem alookup_filter_ne {K V : Type} [DecidableEq K] (l : List (K × V)) (k k2 : K) :
    alookup (l.filter (fun p => !decide (p.1 = k))) k2 =
      if k2 = k then none else alookup l k2 := by
  induction l with
  | nil => simp [alookup]
  | cons p rest ih =>
      rw [List.filter_cons]
      by_cases hp : p.1 = k
      · rw [if_neg (by simp [hp]), ih]
        by_cases h2 : k2 = k
        · simp [h2]
        · have hpk2 : ¬ p.1 = k2 := by rw [hp]; exact fun h => h2 h.symm
          simp [alookup, h2, hpk2]
      · rw [if_pos (by simp [hp])]
        by_cases hk : p.1 = k2
        · have h2 : ¬ k2 = k := fun h => hp (hk.trans h)
          simp [alookup, hk, h2]
        · simp only [alookup, if_neg hk, ih]

theorem alookup_aput {K V : Type} [DecidableEq K] (k : K) (v : V) (l : List (K × V)) (k2 : K) :
    alookup (aput k v l) k2 = if k2 = k then some v else alookup l k2 := by
  rw [aput, alookup_append, alookup_filter_ne]
  by_cases h : k2 = k
  · simp [alookup, h]
  · have h2 : ¬ k = k2 := fun hh => h hh.symm
    cases halt : alookup l k2 <;> simp [alookup, h, h2, halt]

theorem alookup_aupdate {K V : Type} [DecidableEq K] (k : K) (f : V → V) (l : List (K × V)) (k2 : K) :
    alookup (aupdate k f l) k2 =
      if k2 = k then (alookup l k).map f else alookup l k2 := by
  induction l with
  | nil => simp [alookup, aupdate]
  | cons p rest ih =>
      rw [aupdate, List.map_cons]
      rw [aupdate] at ih
      by_cases hp : p.1 = k
      · by_cases h2 : k2 = k
        · have hpk2 : p.1 = k2 := by rw [hp, h2]
          simp [alookup, hp, hpk2, h2]
        · have hpk2 : ¬ p.1 = k2 := by rw [hp]; exact fun h => h2 h.symm
          rw [if_pos hp]
          rw [show alookup ((p.1, f p.2) :: List.map (fun p => if p.1 = k then (p.1, f p.2) else p) rest) k2
                = alookup (List.map (fun p => if p.1 = k then (p.1, f p.2) else p) rest) k2 from by
            simp [alookup, hpk2]]
          rw [ih, if_neg h2, if_neg h2]
          simp [alookup, hpk2]
      · rw [if_neg hp]
        by_cases hk : p.1 = k2
        · have h2 : ¬ k2 = k := fun h => hp (hk.trans h)
          simp [alookup, hp, hk, h2]
        · rw [show alookup (p :: List.map (fun p => if p.1 = k then (p.1, f p.2) else p) rest) k2
                = alookup (List.map (fun p => if p.1 = k then (p.1, f p.2) else p) rest) k2 from by
            simp [alookup, hk]]
          rw [ih]
          by_cases h2 : k2 = k
          · rw [if_pos h2, if_pos h2]
            simp [alookup, h2 ▸ hk]
          · rw [if_neg h2, if_neg h2]
            simp [alookup, hk]


theorem getAssetTag_updateAssetTag (tag t : String) (st : TagStatus)
    (ls : Option String) (now : Nat) (db : ClientDB) :
    getAssetTag t (updateAssetTag tag st ls now db) =
      if t = tag then some ⟨st, ls, now⟩ else getAssetTag t db := by
  simp [getAssetTag, updateAssetTag, alookup_aput]

/-- C6: admission against a cached tag that is `used` with a set (and,
per the JS truthiness test, non-empty) last_serial: a differing
submitted serial is rejected with a Conflict message naming the cached
serial and no state is written, while an equal serial is admitted and
appends exactly one new pending Pair row. -/
theorem admission_conflict_rule (assetTag serial : String) (now : Nat) (db : ClientDB)
    (info : AssetTagRec) (ls : String)
    (hlook : getAssetTag (jsTrim assetTag) db = some info)
    (hused : info.status = .used)
    (hls : info.last_serial = some ls)
    (hne : ls ≠ "")
    (htag : (jsTrim assetTag) ≠ "")
    (hser : (jsTrim serial) ≠ "") :
    (ls ≠ (jsTrim serial) →
      validateAndAddPair assetTag serial now db
        = (.conflict ("Asset tag already used with serial: " ++ ls), db))
    ∧ (ls = (jsTrim serial) →
      validateAndAddPair assetTag serial now db
        = (.saved, addPair (jsTrim assetTag) (jsTrim serial) now db)
      ∧ (addPair (jsTrim assetTag) (jsTrim serial) now db).pairs
        = db.pairs ++ [⟨db.nextPairId, (jsTrim assetTag), (jsTrim serial), now, .pending⟩]) := by
  constructor
  · intro hdiff
    simp [validateAndAddPair, htag, hser, hlook, conflictSerial, hls, hused, hne, hdiff]
  · intro heq
    refine ⟨?_, rfl⟩
    simp [validateAndAddPair, htag, hser, hlook, conflictSerial, hls, hused, hne, heq]

/-- Witness for admission_conflict_rule at the spec example: AT001 used
with SN1; submitting SN2 is rejected naming SN1. -/
theorem admission_conflict_rule_witness :
    validateAndAddPair "AT001" "SN2" 3 usedTagDB
      = (.conflict ("Asset tag already used with serial: " ++ "SN1"), usedTagDB) :=
  (admission_conflict_rule "AT001" "SN2" 3 usedTagDB ⟨.used, some "SN1", 0⟩ "SN1"
    (by decide) rfl rfl (by decide) (by decide) (by decide)).1 (by decide)

/-- C7: admission of a pair whose tag is absent from the local cache
creates nothing — neither a Pair row nor a cache entry — and only shows
the confirmation dialog; the dialog confirm handler registers the tag
locally as `unused` and the re-run admission then succeeds, appending
one pending Pair row. -/
theorem missing_tag_confirmation_flow (assetTag serial : String) (now tReg tAdd : Nat)
    (db : ClientDB)
    (habsent : getAssetTag (jsTrim assetTag) db = none)
    (htag : (jsTrim assetTag) ≠ "")
    (hser : (jsTrim serial) ≠ "") :
    validateAndAddPair assetTag serial now db = (.missingTagDialog, db)
    ∧ getAssetTag (jsTrim assetTag) (updateAssetTag (jsTrim assetTag) .unused none tReg db)
        = some ⟨.unused, none, tReg⟩
    ∧ confirmMissingTag assetTag serial tReg tAdd db
        = (.saved, addPair (jsTrim assetTag) (jsTrim serial) tAdd
            (updateAssetTag (jsTrim assetTag) .unused none tReg db))
    ∧ (confirmMissingTag assetTag serial tReg tAdd db).2.pairs
        = db.pairs ++ [⟨db.nextPairId, (jsTrim assetTag), (jsTrim serial), tAdd, .pending⟩] := by
  have hreg : getAssetTag (jsTrim assetTag) (updateAssetTag (jsTrim assetTag) .unused none tReg db)
      = some ⟨.unused, none, tReg⟩ := by
    rw [getAssetTag_updateAssetTag, if_pos rfl]
  have hrun : confirmMissingTag assetTag serial tReg tAdd db
      = (.saved, addPair (jsTrim assetTag) (jsTrim serial) tAdd
          (updateAssetTag (jsTrim assetTag) .unused none tReg db)) := by
    simp [confirmMissingTag, validateAndAddPair, htag, hser, hreg, conflictSerial]
  refine ⟨?_, hreg, hrun, ?_⟩
  · simp [validateAndAddPair, htag, hser, habsent]
  · rw [hrun]
    simp [addPair, updateAssetTag]

/-- Witness for missing_tag_confirmation_flow at the spec example:
AT999 absent, admission defers to the dialog, confirmation registers it
unused and the pair is then saved. -/
theorem missing_tag_confirmation_flow_witness :
    validateAndAddPair "AT999" "SN1" 2 noTagDB = (.missingTagDialog, noTagDB)
    ∧ getAssetTag "AT999" (updateAssetTag "AT999" .unused none 3 noTagDB)
        = some ⟨.unused, none, 3⟩
    ∧ (confirmMissingTag "AT999" "SN1" 3 4 noTagDB).1 = .saved := by
  have h := missing_tag_confirmation_flow "AT999" "SN1" 2 3 4 noTagDB
    (by decide) (by decide) (by decide)
  refine ⟨h.1, ?_, ?_⟩
  · simpa using h.2.1
  · rw [h.2.2.1]

/-- C8: a 401 response makes makeRequest clear the user-scoped local
state — pairs, upload queue and auth token — while the asset-tag cache
is untouched, and return the AuthRequired error rather than retrying. -/
theorem makeRequest_401_clears_user_state (resp : HttpResponse) (db : ClientDB)
    (h : resp.status = 401) :
    makeRequest resp db = (.error .authRequired, clearUserData db)
    ∧ (clearUserData db).pairs = []
    ∧ (clearUserData db).uploadQueue = []
    ∧ (clearUserData db).authToken = none
    ∧ (clearUserData db).assetTags = db.assetTags := by
  refine ⟨?_, rfl, rfl, rfl, rfl⟩
  simp [makeRequest, h]

/-- Witness for makeRequest_401_clears_user_state on a concrete 401
against a store holding a cached tag. -/
theorem makeRequest_401_clears_user_state_witness :
    makeRequest ⟨401, "Unauthorized"⟩ usedTagDB
      = (.error .authRequired, clearUserData usedTagDB)
    ∧ (clearUserData usedTagDB).assetTags = usedTagDB.assetTags := by
  have h := makeRequest_401_clears_user_state ⟨401, "Unauthorized"⟩ usedTagDB rfl
  exact ⟨h.1, h.2.2.2.2⟩

/-- C9: the batch upload handler never reaches res.json on an empty
array — the completion test lives only inside per-item callbacks — so a
zero-item batch yields no response (and no state change). -/
theorem batchHandler_empty_batch_no_response (user : String) (now : Nat) (s : ServerState) :
    batchHandler user now [] s = (none, s) := rfl

/-- Counterexample to C5 as stated over every batch: the empty batch
yields no response at all, not a zero-entry array. -/
theorem empty_batch_yields_no_array :
    (batchHandler "admin" 0 ([] : List BatchItem) emptyServer).1 = none := rfl

theorem mergeItem_echoes_key (user : String) (now : Nat) (s : ServerState) (it : BatchItem) :
    (mergeItem user now s it).1.asset_tag = it.asset_tag
    ∧ (mergeItem user now s it).1.serial = it.serial := by
  cases h : alookup s.assetTags it.asset_tag <;> simp [mergeItem, h]

theorem runBatch_length (user : String) (now : Nat) :
    ∀ (items : List BatchItem) (s : ServerState),
      (runBatch user now items s).1.length = items.length := by
  intro items
  induction items with
  | nil => intro s; rfl
  | cons it rest ih =>
      intro s
      simp only [runBatch, List.length_cons]
      rw [ih]

theorem runBatch_aligned (user : String) (now : Nat) :
    ∀ (items : List BatchItem) (s : ServerState),
      List.Forall₂ (fun (it : BatchItem) (r : PairUploadResponse) =>
        r.asset_tag = it.asset_tag ∧ r.serial = it.serial) items (runBatch user now items s).1 := by
  intro items
  induction items with
  | nil => intro s; exact List.Forall₂.nil
  | cons it rest ih =>
      intro s
      exact List.Forall₂.cons (mergeItem_echoes_key user now s it) (ih _)

/-- C5 amended: for every nonempty batch, the handler responds with an
array of exactly as many entries as the request, positionally aligned —
entry i echoes the asset_tag and serial of request item i.  (The empty
batch instead yields no response at all; see the counterexample.) -/
theorem batch_response_aligned (user : String) (now : Nat) (items : List BatchItem)
    (s : ServerState) (h : items ≠ []) :
    ∃ rs, (batchHandler user now items s).1 = some rs
      ∧ rs.length = items.length
      ∧ List.Forall₂ (fun (it : BatchItem) (r : PairUploadResponse) =>
          r.asset_tag = it.asset_tag ∧ r.serial = it.serial) items rs := by
  cases items with
  | nil => exact absurd rfl h
  | cons it rest =>
      exact ⟨(runBatch user now (it :: rest) s).1, rfl,
        runBatch_length user now _ s, runBatch_aligned user now _ s⟩

/-- Witness for batch_response_aligned on a concrete two-item batch. -/
theorem batch_response_aligned_witness :
    ∃ rs, (batchHandler "admin" 5 wItems provisionedServer).1 = some rs
      ∧ rs.length = wItems.length
      ∧ List.Forall₂ (fun (it : BatchItem) (r : PairUploadResponse) =>
          r.asset_tag = it.asset_tag ∧ r.serial = it.serial) wItems rs :=
  batch_response_aligned "admin" 5 wItems provisionedServer (by decide)

/-- C3: the per-item merge of the batch endpoint.  An absent tag gives
missing_asset_tag and writes nothing; a present tag gives
ok_overwrite_same_pair exactly when the identical (asset_tag, serial)
row already existed and ok_inserted otherwise, and in either success
case the asset_tags row becomes used with last_serial the submitted
serial, while the pairs row for the key is upserted. -/
theorem mergeItem_merge_semantics (user : String) (now : Nat) (s : ServerState) (it : BatchItem) :
    (alookup s.assetTags it.asset_tag = none →
      (mergeItem user now s it).1.status = .missing_asset_tag
      ∧ (mergeItem user now s it).2 = s)
    ∧ (∀ a, alookup s.assetTags it.asset_tag = some a →
      ((mergeItem user now s it).1.status
          = if (alookup s.pairs (it.asset_tag, it.serial)).isSome
            then UploadStatus.ok_overwrite_same_pair else UploadStatus.ok_inserted)
      ∧ alookup (mergeItem user now s it).2.assetTags it.asset_tag
          = some ⟨.used, some it.serial, now⟩
      ∧ alookup (mergeItem user now s it).2.pairs (it.asset_tag, it.serial)
          = some ⟨user, it.scanned_at.getD now⟩) := by
  constructor
  · intro h
    simp [mergeItem, h]
  · intro a h
    refine ⟨?_, ?_, ?_⟩
    · simp [mergeItem, h]
    · simp [mergeItem, h, alookup_aupdate]
    · simp [mergeItem, h, alookup_aput]

/-- Witness for mergeItem_merge_semantics: a missing tag produces
missing_asset_tag without writes, and a fresh known tag produces
ok_inserted and marks the tag used. -/
theorem mergeItem_merge_semantics_witness :
    ((mergeItem "admin" 5 provisionedServer ⟨"AT404", "SN2", none⟩).1.status = .missing_asset_tag
      ∧ (mergeItem "admin" 5 provisionedServer ⟨"AT404", "SN2", none⟩).2 = provisionedServer)
    ∧ (mergeItem "admin" 5 provisionedServer ⟨"AT001", "SN1", some 2⟩).1.status = .ok_inserted
    ∧ alookup (mergeItem "admin" 5 provisionedServer ⟨"AT001", "SN1", some 2⟩).2.assetTags "AT001"
        = some ⟨.used, some "SN1", 5⟩ := by
  have h1 := (mergeItem_merge_semantics "admin" 5 provisionedServer ⟨"AT404", "SN2", none⟩).1 (by decide)
  have h2 := (mergeItem_merge_semantics "admin" 5 provisionedServer ⟨"AT001", "SN1", some 2⟩).2
    ⟨.unused, none, 0⟩ (by decide)
  exact ⟨h1, h2.1.trans (by decide), h2.2.1⟩

theorem alookup_mem {K V : Type} [DecidableEq K] (l : List (K × V)) (k : K) (v : V)
    (h : alookup l k = some v) : (k, v) ∈ l := by
  induction l with
  | nil => simp [alookup] at h
  | cons p rest ih =>
      by_cases hp : p.1 = k
      · rw [alookup, if_pos hp] at h
        injection h with h2
        cases p with
        | mk a b =>
            cases hp
            cases h2
            exact List.mem_cons_self _ _
      · rw [alookup, if_neg hp] at h
        exact List.mem_cons_of_mem _ (ih h)

theorem mem_aput {K V : Type} [DecidableEq K] (k : K) (v : V) (l : List (K × V)) (p : K × V)
    (h : p ∈ aput k v l) : p = (k, v) ∨ p ∈ l := by
  rw [aput] at h
  rcases List.mem_append.1 h with h1 | h1
  · exact Or.inr (List.mem_of_mem_filter h1)
  · simp only [List.mem_singleton] at h1
    exact Or.inl h1

theorem syncAssetTags_ignores_remote_time (f : AssetTagResponse → Nat) :
    ∀ (remote : List AssetTagResponse) (now : Nat) (db : ClientDB),
      syncAssetTags (remote.map (fun r => { r with updated_at := f r })) now db
        = syncAssetTags remote now db := by
  intro remote
  induction remote with
  | nil => intro now db; rfl
  | cons r rest ih =>
      intro now db
      simp only [List.map_cons, syncAssetTags]
      exact ih now _

theorem getAssetTag_sync_not_mem :
    ∀ (remote : List AssetTagResponse) (now : Nat) (db : ClientDB) (t : String),
      t ∉ remote.map (fun r => r.tag) →
      getAssetTag t (syncAssetTags remote now db) = getAssetTag t db := by
  intro remote
  induction remote with
  | nil => intro now db t _; rfl
  | cons r rest ih =>
      intro now db t h
      simp only [List.map_cons, List.mem_cons] at h
      push_neg at h
      rw [show syncAssetTags (r :: rest) now db
            = syncAssetTags rest now (updateAssetTag r.tag r.status r.last_serial now db) from rfl]
      rw [ih now _ t h.2]
      rw [getAssetTag_updateAssetTag, if_neg h.1]

theorem getAssetTag_sync_mem :
    ∀ (remote : List AssetTagResponse) (now : Nat) (db : ClientDB) (t : String),
      t ∈ remote.map (fun r => r.tag) →
      ∃ rec, getAssetTag t (syncAssetTags remote now db) = some rec ∧ rec.updated_at = now := by
  intro remote
  induction remote with
  | nil => intro now db t h; simp at h
  | cons r rest ih =>
      intro now db t h
      by_cases hmem : t ∈ rest.map (fun r => r.tag)
      · exact ih now _ t hmem
      · have ht : t = r.tag := by
          simp only [List.map_cons, List.mem_cons] at h
          tauto
        rw [show syncAssetTags (r :: rest) now db
              = syncAssetTags rest now (updateAssetTag r.tag r.status r.last_serial now db) from rfl]
        rw [getAssetTag_sync_not_mem rest now _ t hmem]
        rw [getAssetTag_updateAssetTag, if_pos ht]
        exact ⟨_, rfl, rfl⟩

theorem sync_entry_times :
    ∀ (remote : List AssetTagResponse) (now : Nat) (db : ClientDB) (p : String × AssetTagRec),
      p ∈ (syncAssetTags remote now db).assetTags →
      p.2.updated_at = now ∨ p ∈ db.assetTags := by
  intro remote
  induction remote with
  | nil => intro now db p h; exact Or.inr h
  | cons r rest ih =>
      intro now db p h
      rcases ih now _ p h with h1 | h1
      · exact Or.inl h1
      · rcases mem_aput _ _ _ p h1 with h2 | h2
        · exact Or.inl (by rw [h2])
        · exact Or.inr h2

theorem maxTime_le :
    ∀ (l : List (String × AssetTagRec)) (now : Nat),
      (∀ p ∈ l, p.2.updated_at ≤ now) → ∀ m, maxTime l = some m → m ≤ now := by
  intro l
  induction l with
  | nil => intro now _ m hm; simp [maxTime] at hm
  | cons p rest ih =>
      intro now hb m hm
      rw [maxTime] at hm
      cases hr : maxTime rest with
      | none =>
          rw [hr] at hm
          injection hm with hm
          rw [← hm]
          exact hb p (List.mem_cons_self _ _)
      | some m0 =>
          rw [hr] at hm
          injection hm with hm
          rw [← hm]
          exact max_le (hb p (List.mem_cons_self _ _))
            (ih now (fun q hq => hb q (List.mem_cons_of_mem _ hq)) m0 hr)

theorem maxTime_mem_le :
    ∀ (l : List (String × AssetTagRec)) (p : String × AssetTagRec),
      p ∈ l → ∃ m, maxTime l = some m ∧ p.2.updated_at ≤ m := by
  intro l
  induction l with
  | nil => intro p h; simp at h
  | cons q rest ih =>
      intro p h
      rw [maxTime]
      cases hr : maxTime rest with
      | none =>
          rcases List.mem_cons.1 h with h1 | h1
          · exact ⟨q.2.updated_at, rfl, by rw [h1]⟩
          · rcases ih p h1 with ⟨m, hm, _⟩
            rw [hm] at hr
            cases hr
      | some m0 =>
          rcases List.mem_cons.1 h with h1 | h1
          · exact ⟨max q.2.updated_at m0, rfl, by rw [h1]; exact le_max_left _ _⟩
          · rcases ih p h1 with ⟨m, hm, hle⟩
            rw [hm] at hr
            injection hr with hr
            exact ⟨max q.2.updated_at m0, rfl, le_trans hle (hr ▸ le_max_right _ _)⟩

/-- C10: the cache-refresh upsert loop discards the remote updated_at
values entirely (changing them changes nothing), stamps every upserted
entry with the local clock, and therefore the post-sync watermark — the
greatest locally stored updated_at — is the local write time whenever
the refresh is nonempty and the local clock is ahead of the existing
entries. -/
theorem sync_stamps_local_time (remote : List AssetTagResponse) (now : Nat) (db : ClientDB) :
    (∀ f : AssetTagResponse → Nat,
      syncAssetTags (remote.map (fun r => { r with updated_at := f r })) now db
        = syncAssetTags remote now db)
    ∧ (∀ t, t ∈ remote.map (fun r => r.tag) →
        ∃ rec, getAssetTag t (syncAssetTags remote now db) = some rec ∧ rec.updated_at = now)
    ∧ ((∀ p ∈ db.assetTags, p.2.updated_at ≤ now) → remote ≠ [] →
        watermark (syncAssetTags remote now db) = some now) := by
  refine ⟨fun f => syncAssetTags_ignores_remote_time f remote now db,
          fun t ht => getAssetTag_sync_mem remote now db t ht, ?_⟩
  intro hbound hne
  obtain ⟨r, hr⟩ : ∃ r, r ∈ remote := by
    cases remote with
    | nil => exact absurd rfl hne
    | cons a b => exact ⟨a, List.mem_cons_self a b⟩
  have htag : r.tag ∈ remote.map (fun r => r.tag) := List.mem_map_of_mem _ hr
  obtain ⟨rec, hlook, hrec⟩ := getAssetTag_sync_mem remote now db r.tag htag
  have hmem : (r.tag, rec) ∈ (syncAssetTags remote now db).assetTags :=
    alookup_mem _ _ _ hlook
  have hall : ∀ p ∈ (syncAssetTags remote now db).assetTags, p.2.updated_at ≤ now := by
    intro p hp
    rcases sync_entry_times remote now db p hp with h | h
    · exact le_of_eq h
    · exact hbound p h
  obtain ⟨m, hm, hle⟩ := maxTime_mem_le _ _ hmem
  have hmn : m ≤ now := maxTime_le _ now hall m hm
  have hnm : now ≤ m := by rw [← hrec]; exact hle
  rw [watermark, hm]
  exact congrArg some (le_antisymm hmn hnm)

/-- Witness for sync_stamps_local_time: refreshing with a remote record
stamped 999 stores it with the local clock 5 and moves the watermark
to 5, not 999. -/
theorem sync_stamps_local_time_witness :
    (∃ rec, getAssetTag "AT002" (syncAssetTags wRemote 5 usedTagDB) = some rec
      ∧ rec.updated_at = 5)
    ∧ watermark (syncAssetTags wRemote 5 usedTagDB) = some 5 := by
  have h := sync_stamps_local_time wRemote 5 usedTagDB
  exact ⟨h.2.1 "AT002" (by decide), h.2.2 (by decide) (by decide)⟩

theorem getAssetTag_congr (t : String) (d1 d2 : ClientDB)
    (h : d1.assetTags = d2.assetTags) : getAssetTag t d1 = getAssetTag t d2 := by
  rw [getAssetTag, getAssetTag, h]

theorem batchStatusOf_congr (i : Nat) (d1 d2 : ClientDB)
    (h : d1.uploadQueue = d2.uploadQueue) : batchStatusOf d1 i = batchStatusOf d2 i := by
  rw [batchStatusOf, batchStatusOf, h]

theorem applyTagResults_uploadQueue :
    ∀ (results : List PairUploadResponse) (now : Nat) (db : ClientDB),
      (applyTagResults results now db).uploadQueue = db.uploadQueue := by
  intro results
  induction results with
  | nil => intro now db; rfl
  | cons r rest ih =>
      intro now db
      rw [applyTagResults, ih]
      by_cases h : isOkStatus r.status
      · rw [if_pos h]; rfl
      · rw [if_neg h]

theorem applyTagResults_pairs :
    ∀ (results : List PairUploadResponse) (now : Nat) (db : ClientDB),
      (applyTagResults results now db).pairs = db.pairs := by
  intro results
  induction results with
  | nil => intro now db; rfl
  | cons r rest ih =>
      intro now db
      rw [applyTagResults, ih]
      by_cases h : isOkStatus r.status
      · rw [if_pos h]; rfl
      · rw [if_neg h]

theorem applyPairResults_uploadQueue :
    ∀ (items : List Pair) (results : List PairUploadResponse) (db : ClientDB),
      (applyPairResults items results db).uploadQueue = db.uploadQueue := by
  intro items
  induction items with
  | nil => intro results db; rfl
  | cons it rest ih =>
      intro results db
      rw [applyPairResults, ih]
      cases results.find? (fun r => decide (r.asset_tag = it.asset_tag ∧ r.serial = it.serial)) with
      | none => rfl
      | some r =>
          show (if isOkStatus r.status = true
              then markPairsUploaded it.asset_tag it.serial db else db).uploadQueue
            = db.uploadQueue
          by_cases h : isOkStatus r.status = true
          · rw [if_pos h]; rfl
          · rw [if_neg h]

theorem applyPairResults_assetTags :
    ∀ (items : List Pair) (results : List PairUploadResponse) (db : ClientDB),
      (applyPairResults items results db).assetTags = db.assetTags := by
  intro items
  induction items with
  | nil => intro results db; rfl
  | cons it rest ih =>
      intro results db
      rw [applyPairResults, ih]
      cases results.find? (fun r => decide (r.asset_tag = it.asset_tag ∧ r.serial = it.serial)) with
      | none => rfl
      | some r =>
          show (if isOkStatus r.status = true
              then markPairsUploaded it.asset_tag it.serial db else db).assetTags
            = db.assetTags
          by_cases h : isOkStatus r.status = true
          · rw [if_pos h]; rfl
          · rw [if_neg h]

theorem find?_id_map (f : UploadBatch → UploadBatch)
    (hid : ∀ b, (f b).id = b.id) (l : List UploadBatch) (i : Nat) :
    (l.map f).find? (fun b => decide (b.id = i))
      = (l.find? (fun b => decide (b.id = i))).map f := by
  induction l with
  | nil => rfl
  | cons b rest ih =>
      rw [List.map_cons]
      by_cases h : b.id = i
      · rw [List.find?_cons_of_pos _ (by simpa [hid] using h),
            List.find?_cons_of_pos _ (by simpa using h)]
        rfl
      · rw [List.find?_cons_of_neg _ (by simpa [hid] using h),
            List.find?_cons_of_neg _ (by simpa using h)]
        exact ih

theorem batchStatusOf_markBatchDone (id i : Nat) (db : ClientDB) :
    batchStatusOf (markBatchDone id db) i
      = if i = id then (batchStatusOf db i).map (fun _ => BatchStatus.done)
        else batchStatusOf db i := by
  have hid : ∀ b : UploadBatch,
      ((fun b => if b.id = id then { b with status := BatchStatus.done } else b) b).id = b.id := by
    intro b
    by_cases h : b.id = id <;> simp [h]
  rw [batchStatusOf, markBatchDone]
  rw [find?_id_map _ hid db.uploadQueue i]
  cases hf : db.uploadQueue.find? (fun b => decide (b.id = i)) with
  | none =>
      by_cases h : i = id
      · subst h
        simp [batchStatusOf, hf]
      · simp [batchStatusOf, hf, h]
  | some b =>
      have hb : b.id = i := by simpa using List.find?_some hf
      by_cases h : i = id
      · subst h
        simp [batchStatusOf, hf, hb]
      · rw [if_neg h]
        have : ¬ b.id = id := by rw [hb]; exact h
        simp [batchStatusOf, hf, this]

theorem batchStatusOf_markBatchError (id i : Nat) (msg : String) (db : ClientDB) :
    batchStatusOf (markBatchError id msg db) i
      = if i = id then (batchStatusOf db i).map (fun _ => BatchStatus.error)
        else batchStatusOf db i := by
  have hid : ∀ b : UploadBatch,
      ((fun b => if b.id = id then { b with status := BatchStatus.error, error_message := some msg } else b) b).id
        = b.id := by
    intro b
    by_cases h : b.id = id <;> simp [h]
  rw [batchStatusOf, markBatchError]
  rw [find?_id_map _ hid db.uploadQueue i]
  cases hf : db.uploadQueue.find? (fun b => decide (b.id = i)) with
  | none =>
      by_cases h : i = id
      · subst h
        simp [batchStatusOf, hf]
      · simp [batchStatusOf, hf, h]
  | some b =>
      have hb : b.id = i := by simpa using List.find?_some hf
      by_cases h : i = id
      · subst h
        simp [batchStatusOf, hf, hb]
      · rw [if_neg h]
        have : ¬ b.id = id := by rw [hb]; exact h
        simp [batchStatusOf, hf, this]

theorem find?_isSome_of_mem {α : Type} (p : α → Bool) (l : List α) (a : α)
    (ha : a ∈ l) (hp : p a = true) : ∃ b, l.find? p = some b := by
  induction l with
  | nil => cases ha
  | cons x rest ih =>
      by_cases hx : p x = true
      · exact ⟨x, List.find?_cons_of_pos _ hx⟩
      · rcases List.mem_cons.1 ha with h1 | h1
        · rw [← h1] at hx; exact absurd hp hx
        · rcases ih h1 with ⟨b, hb⟩
          exact ⟨b, by rw [List.find?_cons_of_neg _ (by simpa using hx)]; exact hb⟩

theorem batchStatusOf_isSome (db : ClientDB) (i : Nat)
    (h : i ∈ db.uploadQueue.map (fun x => x.id)) :
    ∃ st, batchStatusOf db i = some st := by
  obtain ⟨e, he, heid⟩ := List.mem_map.1 h
  obtain ⟨b, hb⟩ := find?_isSome_of_mem (fun b => decide (b.id = i)) db.uploadQueue e he
    (by simpa using heid)
  exact ⟨b.status, by rw [batchStatusOf, hb]; rfl⟩

theorem batchStatusOf_processBatch_other (upload : UploadCall) (now : Nat)
    (db : ClientDB) (b : UploadBatch) (i : Nat) (hne : b.id ≠ i) :
    batchStatusOf (processBatch upload now db b) i = batchStatusOf db i := by
  have hne2 : ¬ i = b.id := fun h => hne h.symm
  rw [processBatch]
  cases hu : upload b.items with
  | ok results =>
      rw [batchStatusOf_congr i _ _ (applyPairResults_uploadQueue b.items results _)]
      rw [batchStatusOf_markBatchDone, if_neg hne2]
      exact batchStatusOf_congr i _ _ (applyTagResults_uploadQueue results now db)
  | error msg =>
      rw [batchStatusOf_markBatchError, if_neg hne2]

theorem batchStatusOf_processBatch_self (upload : UploadCall) (now : Nat)
    (db : ClientDB) (b : UploadBatch)
    (hmem : b.id ∈ db.uploadQueue.map (fun x => x.id)) :
    batchStatusOf (processBatch upload now db b) b.id = some (replayOutcome upload b) := by
  obtain ⟨st, hst⟩ := batchStatusOf_isSome db b.id hmem
  rw [processBatch, replayOutcome]
  cases hu : upload b.items with
  | ok results =>
      rw [batchStatusOf_congr b.id _ _ (applyPairResults_uploadQueue b.items results _)]
      rw [batchStatusOf_markBatchDone, if_pos rfl]
      rw [batchStatusOf_congr b.id _ _ (applyTagResults_uploadQueue results now db)]
      rw [hst]
      rfl
  | error msg =>
      rw [batchStatusOf_markBatchError, if_pos rfl, hst]
      rfl

theorem processBatch_queue_ids (upload : UploadCall) (now : Nat)
    (db : ClientDB) (b : UploadBatch) :
    (processBatch upload now db b).uploadQueue.map (fun x => x.id)
      = db.uploadQueue.map (fun x => x.id) := by
  rw [processBatch]
  cases hu : upload b.items with
  | ok results =>
      rw [applyPairResults_uploadQueue]
      rw [show (markBatchDone b.id (applyTagResults results now db)).uploadQueue
            = (applyTagResults results now db).uploadQueue.map
                (fun x => if x.id = b.id then { x with status := BatchStatus.done } else x) from rfl]
      rw [applyTagResults_uploadQueue, List.map_map]
      apply List.map_congr_left
      intro x _
      by_cases h : x.id = b.id <;> simp [h]
  | error msg =>
      rw [show (markBatchError b.id msg db).uploadQueue
            = db.uploadQueue.map
                (fun x => if x.id = b.id
                  then { x with status := BatchStatus.error, error_message := some msg } else x) from rfl]
      rw [List.map_map]
      apply List.map_congr_left
      intro x _
      by_cases h : x.id = b.id <;> simp [h]

theorem replayBatches_statusOf_untouched (upload : UploadCall) (now : Nat) :
    ∀ (bs : List UploadBatch) (db : ClientDB) (i : Nat),
      (∀ b ∈ bs, b.id ≠ i) →
      batchStatusOf (replayBatches upload now bs db) i = batchStatusOf db i := by
  intro bs
  induction bs with
  | nil => intro db i _; rfl
  | cons x rest ih =>
      intro db i h
      rw [replayBatches]
      rw [ih _ i (fun b hb => h b (List.mem_cons_of_mem _ hb))]
      exact batchStatusOf_processBatch_other upload now db x i (h x (List.mem_cons_self _ _))

theorem replayBatches_statusOf_mem (upload : UploadCall) (now : Nat) :
    ∀ (bs : List UploadBatch) (db : ClientDB) (b : UploadBatch),
      b ∈ bs → (bs.map (fun x => x.id)).Nodup →
      b.id ∈ db.uploadQueue.map (fun x => x.id) →
      batchStatusOf (replayBatches upload now bs db) b.id = some (replayOutcome upload b) := by
  intro bs
  induction bs with
  | nil => intro db b hb; cases hb
  | cons x rest ih =>
      intro db b hb hnd hmem
      rw [List.map_cons, List.nodup_cons] at hnd
      rw [replayBatches]
      rcases List.mem_cons.1 hb with h1 | h1
      · subst h1
        rw [replayBatches_statusOf_untouched upload now rest _ b.id ?_]
        · exact batchStatusOf_processBatch_self upload now db b hmem
        · intro b2 hb2 heq
          exact hnd.1 (heq ▸ List.mem_map_of_mem (fun x => x.id) hb2)
      · apply ih _ b h1 hnd.2
        rw [processBatch_queue_ids]
        exact hmem

/-- C1 amended: on the online transition, exactly the queue's batches
with status `pending` are submitted — one remote call per batch, in
queue order, which is oldest-first whenever created_at is nondecreasing
along the queue — and each replayed batch's outcome lands independently
in its own status (`done` on a response, `error` on a thrown fault).
Batches whose status is `error` are not replayed (see the
counterexample). -/
theorem online_replay_pending_only (upload : UploadCall) (now : Nat) (db : ClientDB)
    (hsorted : db.uploadQueue.Pairwise (fun a b => a.created_at ≤ b.created_at))
    (hnodup : (db.uploadQueue.map (fun x => x.id)).Nodup) :
    (processOfflineQueue upload now db).2
      = ((db.uploadQueue.filter (fun b => decide (b.status = BatchStatus.pending))).map
          (fun b => b.items))
    ∧ (getPendingUploads db).Pairwise (fun a b => a.created_at ≤ b.created_at)
    ∧ ∀ b ∈ getPendingUploads db,
        batchStatusOf (processOfflineQueue upload now db).1 b.id
          = some (replayOutcome upload b) := by
  refine ⟨rfl, hsorted.sublist (List.filter_sublist _), ?_⟩
  intro b hb
  exact replayBatches_statusOf_mem upload now (getPendingUploads db) db b hb
    (hnodup.sublist ((List.filter_sublist _).map _))
    (List.mem_map_of_mem _ (List.mem_of_mem_filter hb))

/-- Witness for online_replay_pending_only: two pending batches are
both attempted oldest first; the first call succeeds and its batch ends
`done`, the second throws and its batch ends `error`, independently. -/
theorem online_replay_pending_only_witness :
    (processOfflineQueue mixedUpload 5 twoBatchDB).2 = [[pairA], [pairB]]
    ∧ batchStatusOf (processOfflineQueue mixedUpload 5 twoBatchDB).1 0 = some .done
    ∧ batchStatusOf (processOfflineQueue mixedUpload 5 twoBatchDB).1 1 = some .error := by
  have h := online_replay_pending_only mixedUpload 5 twoBatchDB (by decide) (by decide)
  refine ⟨h.1.trans (by decide), ?_, ?_⟩
  · have hb := h.2.2 ⟨0, [pairA], .pending, 0, none⟩ (by decide)
    exact hb.trans (by decide)
  · have hb := h.2.2 ⟨1, [pairB], .pending, 1, none⟩ (by decide)
    exact hb.trans (by decide)

/-- Counterexample to C1 as stated: a queue holding only an `error`
batch triggers no remote call at all on the online transition (even
against a server that would accept it), and the batch stays `error`. -/
theorem error_batch_not_replayed :
    (processOfflineQueue okUpload 5 errorQueueDB).2 = []
    ∧ batchStatusOf (processOfflineQueue okUpload 5 errorQueueDB).1 0 = some .error := by
  constructor
  · decide
  · decide

theorem applyPairStep (results : List PairUploadResponse) (it : Pair) (db : ClientDB) :
    (match results.find? (fun r => decide (r.asset_tag = it.asset_tag ∧ r.serial = it.serial)) with
     | some r => if isOkStatus r.status then markPairsUploaded it.asset_tag it.serial db else db
     | none => db)
      = if resultOkFor results it.asset_tag it.serial
        then markPairsUploaded it.asset_tag it.serial db else db := by
  rw [resultOkFor]
  cases hf : results.find? (fun r => decide (r.asset_tag = it.asset_tag ∧ r.serial = it.serial)) with
  | none => simp
  | some r =>
      by_cases h : isOkStatus r.status = true <;> simp [h]

theorem markPairsUploaded_pairs (t sn : String) (db : ClientDB) :
    (markPairsUploaded t sn db).pairs
      = db.pairs.map (fun p =>
          if p.asset_tag = t ∧ p.serial = sn then { p with status := .uploaded } else p) := rfl

theorem applyPairResults_pairs_char :
    ∀ (items : List Pair) (results : List PairUploadResponse) (db : ClientDB),
      (applyPairResults items results db).pairs
        = db.pairs.map (fun p =>
            if keyUploaded items results p.asset_tag p.serial
            then { p with status := .uploaded } else p) := by
  intro items
  induction items with
  | nil =>
      intro results db
      show db.pairs = _
      have he : (fun p : Pair =>
          if keyUploaded [] results p.asset_tag p.serial
          then { p with status := PairStatus.uploaded } else p) = fun p => p := by
        funext p
        simp [keyUploaded]
      rw [he]
      simp
  | cons it rest ih =>
      intro results db
      rw [applyPairResults, applyPairStep, ih]
      by_cases hok : resultOkFor results it.asset_tag it.serial = true
      · rw [if_pos hok, markPairsUploaded_pairs, List.map_map]
        apply List.map_congr_left
        intro p _
        show (fun p => if keyUploaded rest results p.asset_tag p.serial
                then { p with status := PairStatus.uploaded } else p)
            (if p.asset_tag = it.asset_tag ∧ p.serial = it.serial
              then { p with status := PairStatus.uploaded } else p)
          = if keyUploaded (it :: rest) results p.asset_tag p.serial
            then { p with status := PairStatus.uploaded } else p
        by_cases hpk : p.asset_tag = it.asset_tag ∧ p.serial = it.serial
        · have h1 : it.asset_tag = p.asset_tag := hpk.1.symm
          have h2 : it.serial = p.serial := hpk.2.symm
          have hro : resultOkFor results p.asset_tag p.serial = true := by
            rw [hpk.1, hpk.2]; exact hok
          have hcond : keyUploaded (it :: rest) results p.asset_tag p.serial = true := by
            rw [keyUploaded, List.any_cons]
            simp [h1, h2, hro]
          rw [if_pos hpk, if_pos hcond]
          show (if keyUploaded rest results p.asset_tag p.serial = true
              then ({ p with status := PairStatus.uploaded } : Pair)
              else { p with status := PairStatus.uploaded })
            = { p with status := PairStatus.uploaded }
          exact ite_self _
        · have h1 : ¬ (it.asset_tag = p.asset_tag ∧ it.serial = p.serial) :=
            fun h => hpk ⟨h.1.symm, h.2.symm⟩
          have hcond : keyUploaded (it :: rest) results p.asset_tag p.serial
              = keyUploaded rest results p.asset_tag p.serial := by
            rw [keyUploaded, keyUploaded, List.any_cons, decide_eq_false h1]
            rw [Bool.false_or]
          rw [if_neg hpk, hcond]
      · rw [if_neg hok]
        apply List.map_congr_left
        intro p _
        by_cases hpk : p.asset_tag = it.asset_tag ∧ p.serial = it.serial
        · have hro : resultOkFor results p.asset_tag p.serial = false := by
            rw [hpk.1, hpk.2]
            cases hcase : resultOkFor results it.asset_tag it.serial
            · rfl
            · exact absurd hcase hok
          simp [keyUploaded, hro]
        · have h1 : ¬ (it.asset_tag = p.asset_tag ∧ it.serial = p.serial) :=
            fun h => hpk ⟨h.1.symm, h.2.symm⟩
          simp [keyUploaded, List.any_cons, h1]

theorem getAssetTag_applyTagResults_untouched :
    ∀ (results : List PairUploadResponse) (now : Nat) (db : ClientDB) (t : String),
      (∀ r ∈ results, isOkStatus r.status = true → r.asset_tag ≠ t) →
      getAssetTag t (applyTagResults results now db) = getAssetTag t db := by
  intro results
  induction results with
  | nil => intro now db t _; rfl
  | cons r rest ih =>
      intro now db t h
      rw [applyTagResults]
      rw [ih now _ t (fun r2 h2 => h r2 (List.mem_cons_of_mem _ h2))]
      by_cases hr : isOkStatus r.status = true
      · have hne : ¬ t = r.asset_tag :=
          fun heq => h r (List.mem_cons_self _ _) hr heq.symm
        rw [if_pos hr, getAssetTag_updateAssetTag, if_neg hne]
      · rw [if_neg hr]

/-- C2 amended: a replayed batch whose remote call returns a response
is marked `done` whatever the per-item outcomes are (only a thrown
fault marks a batch `error`); item-level application covers successes
only — a local pair row is marked uploaded exactly when some batch item
carries its key and the first response entry for that key is a success,
so a pair whose outcome is missing_asset_tag keeps its previous status
rather than turning `error` — and the asset-tag cache entry of any tag
with no successful response entry, in particular a missing_asset_tag
one, is left unchanged. -/
theorem processBatch_partial_outcomes (upload : UploadCall) (now : Nat) (db : ClientDB)
    (batch : UploadBatch) (results : List PairUploadResponse)
    (hok : upload batch.items = .ok results)
    (hmem : batch.id ∈ db.uploadQueue.map (fun x => x.id)) :
    batchStatusOf (processBatch upload now db batch) batch.id = some .done
    ∧ (processBatch upload now db batch).pairs
        = db.pairs.map (fun p =>
            if keyUploaded batch.items results p.asset_tag p.serial
            then { p with status := .uploaded } else p)
    ∧ ∀ t, (∀ r ∈ results, isOkStatus r.status = true → r.asset_tag ≠ t) →
        getAssetTag t (processBatch upload now db batch) = getAssetTag t db := by
  refine ⟨?_, ?_, ?_⟩
  · rw [batchStatusOf_processBatch_self upload now db batch hmem]
    simp [replayOutcome, hok]
  · simp only [processBatch, hok]
    rw [applyPairResults_pairs_char]
    rw [show (markBatchDone batch.id (applyTagResults results now db)).pairs
          = (applyTagResults results now db).pairs from rfl]
    rw [applyTagResults_pairs]
  · intro t ht
    simp only [processBatch, hok]
    have e1 : (applyPairResults batch.items results
          (markBatchDone batch.id (applyTagResults results now db))).assetTags
        = (applyTagResults results now db).assetTags := by
      rw [applyPairResults_assetTags]
      rfl
    rw [getAssetTag_congr t _ (applyTagResults results now db) e1]
    exact getAssetTag_applyTagResults_untouched results now db t ht

/-- Witness for processBatch_partial_outcomes: a batch whose single
item comes back missing_asset_tag ends with batch status done, the pair
row untouched (still pending) and the cache still empty. -/
theorem processBatch_partial_outcomes_witness :
    batchStatusOf (processBatch missUpload 5 missingTagBatchDB
        ⟨0, [pairC], .pending, 0, none⟩) 0 = some .done
    ∧ (processBatch missUpload 5 missingTagBatchDB
        ⟨0, [pairC], .pending, 0, none⟩).pairs = [pairC]
    ∧ getAssetTag "AT999" (processBatch missUpload 5 missingTagBatchDB
        ⟨0, [pairC], .pending, 0, none⟩) = getAssetTag "AT999" missingTagBatchDB := by
  have h := processBatch_partial_outcomes missUpload 5 missingTagBatchDB
    ⟨0, [pairC], .pending, 0, none⟩
    [⟨.missing_asset_tag, "AT999", "SN1", some "Asset tag not found"⟩]
    (by rfl) (by decide)
  exact ⟨h.1, h.2.1.trans (by decide), h.2.2 "AT999" (by decide)⟩

/-- Counterexample to C2 as stated: replaying a pending batch whose
only item is answered missing_asset_tag marks the batch `done`, not
`error`, and leaves the pair `pending`, not `error`. -/
theorem failed_item_batch_not_marked_error :
    batchStatusOf (processOfflineQueue missUpload 5 missingTagBatchDB).1 0 = some .done
    ∧ (processOfflineQueue missUpload 5 missingTagBatchDB).1.pairs = [pairC]
    ∧ getAssetTag "AT999" (processOfflineQueue missUpload 5 missingTagBatchDB).1 = none := by
  refine ⟨?_, ?_, ?_⟩ <;> decide

theorem runBatch_cons_fst (user : String) (now : Nat) (it : BatchItem)
    (rest : List BatchItem) (s : ServerState) :
    (runBatch user now (it :: rest) s).1
      = (mergeItem user now s it).1
        :: (runBatch user now rest (mergeItem user now s it).2).1 := rfl

theorem runBatch_cons_snd (user : String) (now : Nat) (it : BatchItem)
    (rest : List BatchItem) (s : ServerState) :
    (runBatch user now (it :: rest) s).2
      = (runBatch user now rest (mergeItem user now s it).2).2 := rfl

theorem mergeItem_fst_of_missing (user : String) (now : Nat) (s : ServerState) (it : BatchItem)
    (h : alookup s.assetTags it.asset_tag = none) :
    (mergeItem user now s it).1
      = ⟨.missing_asset_tag, it.asset_tag, it.serial, some "Asset tag not found"⟩ := by
  simp [mergeItem, h]

theorem mergeItem_state_of_missing (user : String) (now : Nat) (s : ServerState) (it : BatchItem)
    (h : alookup s.assetTags it.asset_tag = none) :
    (mergeItem user now s it).2 = s := by
  simp [mergeItem, h]

theorem mergeItem_status_of_some (user : String) (now : Nat) (s : ServerState) (it : BatchItem)
    (a : AssetTagRec) (h : alookup s.assetTags it.asset_tag = some a) :
    (mergeItem user now s it).1.status
      = if (alookup s.pairs (it.asset_tag, it.serial)).isSome
        then UploadStatus.ok_overwrite_same_pair else UploadStatus.ok_inserted := by
  simp [mergeItem, h]

theorem mergeItem_tagExists (user : String) (now : Nat) (s : ServerState) (it : BatchItem)
    (t : String) : tagExists (mergeItem user now s it).2 t = tagExists s t := by
  rw [tagExists, tagExists]
  cases h : alookup s.assetTags it.asset_tag with
  | none => rw [mergeItem_state_of_missing user now s it h]
  | some a =>
      simp only [mergeItem, h]
      rw [alookup_aupdate]
      by_cases ht : t = it.asset_tag
      · rw [if_pos ht, ht, h]
        rfl
      · rw [if_neg ht]

theorem mergeItem_tagView_some (user : String) (now : Nat) (s : ServerState) (it : BatchItem)
    (a : AssetTagRec) (h : alookup s.assetTags it.asset_tag = some a) :
    tagView (mergeItem user now s it).2 it.asset_tag
      = some (.used, some it.serial) := by
  rw [tagView]
  simp only [mergeItem, h]
  rw [alookup_aupdate, if_pos rfl, h]
  rfl

theorem mergeItem_tagView_other (user : String) (now : Nat) (s : ServerState) (it : BatchItem)
    (t : String) (ht : t ≠ it.asset_tag) :
    tagView (mergeItem user now s it).2 t = tagView s t := by
  rw [tagView, tagView]
  cases h : alookup s.assetTags it.asset_tag with
  | none => rw [mergeItem_state_of_missing user now s it h]
  | some a =>
      simp only [mergeItem, h]
      rw [alookup_aupdate, if_neg ht]

theorem mergeItem_pair_mono (user : String) (now : Nat) (s : ServerState) (it : BatchItem)
    (k : String × String) (h : pairKeyExists s k = true) :
    pairKeyExists (mergeItem user now s it).2 k = true := by
  rw [pairKeyExists] at h ⊢
  cases hm : alookup s.assetTags it.asset_tag with
  | none => rw [mergeItem_state_of_missing user now s it hm]; exact h
  | some a =>
      simp only [mergeItem, hm]
      rw [alookup_aput]
      by_cases hk : k = (it.asset_tag, it.serial)
      · rw [if_pos hk]
        rfl
      · rw [if_neg hk]
        exact h

theorem mergeItem_inserts (user : String) (now : Nat) (s : ServerState) (it : BatchItem)
    (h : tagExists s it.asset_tag = true) :
    pairKeyExists (mergeItem user now s it).2 (it.asset_tag, it.serial) = true := by
  rw [tagExists] at h
  cases hm : alookup s.assetTags it.asset_tag with
  | none => rw [hm] at h; cases h
  | some a =>
      rw [pairKeyExists]
      simp only [mergeItem, hm]
      rw [alookup_aput, if_pos rfl]
      rfl

theorem runBatch_tagExists (user : String) (now : Nat) :
    ∀ (items : List BatchItem) (s : ServerState) (t : String),
      tagExists (runBatch user now items s).2 t = tagExists s t := by
  intro items
  induction items with
  | nil => intro s t; rfl
  | cons it rest ih =>
      intro s t
      rw [runBatch_cons_snd, ih, mergeItem_tagExists]

theorem runBatch_pair_mono (user : String) (now : Nat) :
    ∀ (items : List BatchItem) (s : ServerState) (k : String × String),
      pairKeyExists s k = true → pairKeyExists (runBatch user now items s).2 k = true := by
  intro items
  induction items with
  | nil => intro s k h; exact h
  | cons it rest ih =>
      intro s k h
      rw [runBatch_cons_snd]
      exact ih _ k (mergeItem_pair_mono user now s it k h)

theorem runBatch_inserts (user : String) (now : Nat) :
    ∀ (items : List BatchItem) (s : ServerState) (it2 : BatchItem),
      it2 ∈ items → tagExists s it2.asset_tag = true →
      pairKeyExists (runBatch user now items s).2 (it2.asset_tag, it2.serial) = true := by
  intro items
  induction items with
  | nil => intro s it2 h; cases h
  | cons it rest ih =>
      intro s it2 hmem htag
      rw [runBatch_cons_snd]
      rcases List.mem_cons.1 hmem with h1 | h1
      · subst h1
        exact runBatch_pair_mono user now rest _ _ (mergeItem_inserts user now s it2 htag)
      · exact ih _ it2 h1 (by rw [mergeItem_tagExists]; exact htag)

theorem lastSerialFor_cons_self (it : BatchItem) (rest : List BatchItem) :
    lastSerialFor (it :: rest) it.asset_tag
      = match lastSerialFor rest it.asset_tag with
        | some sn => some sn
        | none => some it.serial := by
  rw [lastSerialFor]
  cases lastSerialFor rest it.asset_tag <;> simp

theorem lastSerialFor_cons_other (it : BatchItem) (rest : List BatchItem) (t : String)
    (ht : ¬ it.asset_tag = t) :
    lastSerialFor (it :: rest) t = lastSerialFor rest t := by
  rw [lastSerialFor]
  cases lastSerialFor rest t with
  | none => rw [if_neg ht]
  | some sn => rfl

theorem runBatch_tagView (user : String) (now : Nat) :
    ∀ (items : List BatchItem) (s : ServerState) (t : String),
      tagView (runBatch user now items s).2 t
        = match tagView s t, lastSerialFor items t with
          | none, _ => none
          | some v, none => some v
          | some _, some sn => some (.used, some sn) := by
  intro items
  induction items with
  | nil =>
      intro s t
      cases h : tagView s t <;> simp [runBatch, lastSerialFor, h]
  | cons it rest ih =>
      intro s t
      rw [runBatch_cons_snd, ih]
      by_cases ht : t = it.asset_tag
      · subst ht
        cases h : alookup s.assetTags it.asset_tag with
        | none =>
            rw [mergeItem_state_of_missing user now s it h]
            have hv : tagView s it.asset_tag = none := by rw [tagView, h]; rfl
            rw [hv]
        | some a =>
            have hv : tagView s it.asset_tag = some (a.status, a.last_serial) := by
              rw [tagView, h]
              rfl
            have hm : tagView (mergeItem user now s it).2 it.asset_tag
                = some (.used, some it.serial) := mergeItem_tagView_some user now s it a h
            rw [hm, hv]
            cases hl : lastSerialFor rest it.asset_tag with
            | none =>
                rw [show lastSerialFor (it :: rest) it.asset_tag = some it.serial from by
                  rw [lastSerialFor_cons_self, hl]]
            | some sn =>
                rw [show lastSerialFor (it :: rest) it.asset_tag = some sn from by
                  rw [lastSerialFor_cons_self, hl]]
      · rw [mergeItem_tagView_other user now s it t ht]
        rw [lastSerialFor_cons_other it rest t (fun hh => ht hh.symm)]

theorem runBatch_tagView_idem (user1 : String) (now1 : Nat) (user2 : String) (now2 : Nat)
    (items : List BatchItem) (s : ServerState) (t : String) :
    tagView (runBatch user2 now2 items (runBatch user1 now1 items s).2).2 t
      = tagView (runBatch user1 now1 items s).2 t := by
  rw [runBatch_tagView user2 now2 items (runBatch user1 now1 items s).2 t]
  cases hl : lastSerialFor items t with
  | none =>
      cases hv1 : tagView (runBatch user1 now1 items s).2 t <;> rfl
  | some sn =>
      cases hv : tagView s t with
      | none =>
          have h1 : tagView (runBatch user1 now1 items s).2 t = none := by
            rw [runBatch_tagView, hv, hl]
          rw [h1]
      | some v =>
          have h1 : tagView (runBatch user1 now1 items s).2 t = some (.used, some sn) := by
            rw [runBatch_tagView, hv, hl]
          rw [h1]

theorem runBatch_second_overwrite (user1 : String) (now1 : Nat) (user2 : String) (now2 : Nat) :
    ∀ (items : List BatchItem) (s1 s2 : ServerState),
      (∀ t, tagExists s2 t = tagExists s1 t) →
      (∀ it ∈ items, tagExists s1 it.asset_tag = true →
        pairKeyExists s2 (it.asset_tag, it.serial) = true) →
      List.Forall₂ (fun (r1 r2 : PairUploadResponse) =>
          r1.status = .ok_inserted → r2.status = .ok_overwrite_same_pair)
        (runBatch user1 now1 items s1).1 (runBatch user2 now2 items s2).1 := by
  intro items
  induction items with
  | nil => intro s1 s2 _ _; exact List.Forall₂.nil
  | cons it rest ih =>
      intro s1 s2 htag hpair
      rw [runBatch_cons_fst, runBatch_cons_fst]
      refine List.Forall₂.cons ?_ ?_
      · intro h1
        have hex : tagExists s1 it.asset_tag = true := by
          by_contra hno
          have hnone : alookup s1.assetTags it.asset_tag = none := by
            rw [tagExists] at hno
            cases hl : alookup s1.assetTags it.asset_tag with
            | none => rfl
            | some a => rw [hl] at hno; exact absurd rfl hno
          rw [mergeItem_fst_of_missing user1 now1 s1 it hnone] at h1
          cases h1
        have hp2 : pairKeyExists s2 (it.asset_tag, it.serial) = true :=
          hpair it (List.mem_cons_self _ _) hex
        have hex2 : tagExists s2 it.asset_tag = true := by rw [htag]; exact hex
        obtain ⟨a2, ha2⟩ : ∃ a, alookup s2.assetTags it.asset_tag = some a := by
          rw [tagExists] at hex2
          cases hl : alookup s2.assetTags it.asset_tag with
          | none => rw [hl] at hex2; cases hex2
          | some a => exact ⟨a, rfl⟩
        rw [mergeItem_status_of_some user2 now2 s2 it a2 ha2]
        rw [pairKeyExists] at hp2
        rw [if_pos hp2]
      · apply ih (mergeItem user1 now1 s1 it).2 (mergeItem user2 now2 s2 it).2
        · intro t
          rw [mergeItem_tagExists, mergeItem_tagExists]
          exact htag t
        · intro it2 hmem htag2
          rw [mergeItem_tagExists] at htag2
          exact mergeItem_pair_mono user2 now2 s2 it _
            (hpair it2 (List.mem_cons_of_mem _ hmem) htag2)

/-- C4: submitting the same batch of items to the merge twice yields
the same final per-tag AssetTag state (status and last_serial) as
submitting it once, and every position whose first-run outcome was
ok_inserted comes back ok_overwrite_same_pair on the second run. -/
theorem batch_merge_idempotent (user1 : String) (now1 : Nat) (user2 : String) (now2 : Nat)
    (items : List BatchItem) (s : ServerState) :
    (∀ t, tagView (runBatch user2 now2 items (runBatch user1 now1 items s).2).2 t
        = tagView (runBatch user1 now1 items s).2 t)
    ∧ List.Forall₂ (fun (r1 r2 : PairUploadResponse) =>
        r1.status = .ok_inserted → r2.status = .ok_overwrite_same_pair)
      (runBatch user1 now1 items s).1
      (runBatch user2 now2 items (runBatch user1 now1 items s).2).1 := by
  constructor
  · intro t
    exact runBatch_tagView_idem user1 now1 user2 now2 items s t
  · apply runBatch_second_overwrite
    · intro t
      exact runBatch_tagExists user1 now1 items s t
    · intro it hmem htag
      exact runBatch_inserts user1 now1 items s it hmem htag

/-- Witness for batch_merge_idempotent: replaying the concrete two-item
batch leaves AT001 in the same view as the first run, and the response
at the inserted position flips from ok_inserted to
ok_overwrite_same_pair while the missing one stays missing. -/
theorem batch_merge_idempotent_witness :
    tagView (runBatch "admin" 7 wItems (runBatch "admin" 5 wItems provisionedServer).2).2 "AT001"
      = tagView (runBatch "admin" 5 wItems provisionedServer).2 "AT001"
    ∧ (runBatch "admin" 5 wItems provisionedServer).1.map (fun r => r.status)
        = [.ok_inserted, .missing_asset_tag]
    ∧ (runBatch "admin" 7 wItems
        (runBatch "admin" 5 wItems provisionedServer).2).1.map (fun r => r.status)
        = [.ok_overwrite_same_pair, .missing_asset_tag] := by
  refine ⟨(batch_merge_idempotent "admin" 5 "admin" 7 wItems provisionedServer).1 "AT001",
    ?_, ?_⟩ <;> decide

end AssetSync
